import Mathlib

/-!
Shallow embedding of the admission-control and stream-integrity layer of
manta-muskie: `lib/throttle.js` (the `Throttle` object and its `wait`
operation, together with the vasync work queue it drives) and
`lib/check_stream.js` (the `CheckStream` pass-through stream guard).

Conventions of the embedding:
* Timestamps are natural numbers of nanoseconds; `process.hrtime`
  values are the `(seconds, nanoseconds)` pairs Node returns, obtained
  from a nanosecond count by division/modulo by 10^9.
* JavaScript numbers that hold rates and intervals are modelled as
  rationals (`ℚ`).
* Callback invocations (`next()`, `next(err)`, a `_write` callback) are
  recorded as explicit output data rather than executed.
* The md5 accumulator is modelled injectively: the "digest" of a hash
  state is the list of bytes fed to it, which distinguishes states
  exactly as far as the claims need.
-/

namespace Muskie

/-- Nanoseconds per second, the unit conversion used throughout
`throttle.js` (`Math.pow(10, 9)`). -/
def nsPerSec : ℕ := 1000000000

/-- A `process.hrtime` pair `[seconds, nanoseconds]`. -/
structure HrTime where
  sec : ℕ
  ns : ℕ
  deriving Repr, DecidableEq

/-- Convert a nanosecond count into the `[sec, ns]` pair Node's
`process.hrtime` / `jsprim.hrtimeDiff` produce. -/
def hrtimeOfNs (t : ℕ) : HrTime :=
  ⟨t / nsPerSec, t % nsPerSec⟩

/-- Model of `jsprim.hrtimeDiff(now, prev)` (also `process.hrtime(prev)`): the
elapsed time between two instants as an `[sec, ns]` pair. -/
def hrtimeDiff (now prev : ℕ) : HrTime :=
  hrtimeOfNs (now - prev)

/-- The true elapsed time between two instants, in seconds. -/
def trueElapsedSec (now prev : ℕ) : ℚ :=
  ((now - prev : ℕ) : ℚ) / ((10 : ℚ) ^ 9)

/-!
## The vasync work queue

`throttle.js` builds its request queue with
`vasync.queue(function (task, callback) { task(callback); }, concurrency)`.
The queue itself lives in the `vasync` dependency, not in this
repository; its scheduling discipline is embedded here: pushed tasks are
appended to `queued`, and a dispatch loop moves tasks from the head of
`queued` into the running set while fewer than `concurrency` tasks are
running; a task's completion callback removes it from the running set
and dispatches again.  `length()` is `queued.length + npending`.
Tasks are identified by natural-number ids.
-/

/-- State of a vasync queue: the concurrency bound, the FIFO list of
queued (pending) task ids — head is oldest — and the list of currently
running task ids. -/
structure VQueue where
  concurrency : ℕ
  queued : List ℕ
  running : List ℕ
  deriving Repr, DecidableEq

/-- The vasync dispatch loop: move tasks from the head of the pending
list into the running set while a concurrency slot is free. -/
def dispatchAux (conc : ℕ) : List ℕ → List ℕ → List ℕ × List ℕ
  | running, [] => (running, [])
  | running, x :: xs =>
      if running.length < conc then dispatchAux conc (x :: running) xs
      else (running, x :: xs)

/-- Run the dispatch loop on a queue state. -/
def VQueue.dispatch (q : VQueue) : VQueue :=
  let p := dispatchAux q.concurrency q.running q.queued
  { q with running := p.1, queued := p.2 }

/-- A fresh vasync queue with the given concurrency. -/
def VQueue.init (conc : ℕ) : VQueue :=
  ⟨conc, [], []⟩

/-- The `queue.length()` figure: number of queued plus number of running tasks. -/
def VQueue.length (q : VQueue) : ℕ :=
  q.queued.length + q.running.length

/-- Events a vasync queue reacts to: `push id` submits task `id`;
`complete id` is the completion callback of a running task. -/
inductive QEvent where
  | push (id : ℕ)
  | complete (id : ℕ)
  deriving Repr, DecidableEq

/-- One queue transition.  `push` appends and dispatches; `complete`
removes the task from the running set (if present) and dispatches. -/
def VQueue.step (q : VQueue) : QEvent → VQueue
  | .push id => VQueue.dispatch { q with queued := q.queued ++ [id] }
  | .complete id =>
      if id ∈ q.running then
        VQueue.dispatch { q with running := q.running.erase id }
      else q

/-- Run a queue through a list of events. -/
def VQueue.run (q : VQueue) (es : List QEvent) : VQueue :=
  es.foldl VQueue.step q

/-- Reachability invariant of a vasync queue: never more than
`concurrency` tasks running, and tasks wait in `queued` only while every
concurrency slot is occupied. -/
def VQueue.Inv (q : VQueue) : Prop :=
  q.running.length ≤ q.concurrency ∧
    (q.queued ≠ [] → q.running.length = q.concurrency)

theorem dispatchAux_inv (conc : ℕ) (queued : List ℕ) :
    ∀ running : List ℕ, running.length ≤ conc →
      (dispatchAux conc running queued).1.length ≤ conc ∧
        ((dispatchAux conc running queued).2 ≠ [] →
          (dispatchAux conc running queued).1.length = conc) := by
  induction queued with
  | nil =>
      intro running h
      exact ⟨h, fun hne => absurd rfl hne⟩
  | cons x xs ih =>
      intro running h
      by_cases hlt : running.length < conc
      · simpa [dispatchAux, hlt] using ih (x :: running) (by simpa using hlt)
      · have heq : running.length = conc := le_antisymm h (not_lt.mp hlt)
        simp [dispatchAux, hlt, heq]

theorem VQueue.dispatch_inv (q : VQueue) (h : q.running.length ≤ q.concurrency) :
    q.dispatch.Inv := by
  have := dispatchAux_inv q.concurrency q.queued q.running h
  simpa [VQueue.dispatch, VQueue.Inv] using this

theorem VQueue.step_inv (q : VQueue) (e : QEvent) (h : q.Inv) : (q.step e).Inv := by
  cases e with
  | push id =>
      exact VQueue.dispatch_inv _ h.1
  | complete id =>
      by_cases hmem : id ∈ q.running
      · have hlen : (q.running.erase id).length ≤ q.concurrency := by
          calc (q.running.erase id).length ≤ q.running.length :=
                List.length_erase_le _ _
            _ ≤ q.concurrency := h.1
        simpa [VQueue.step, hmem] using VQueue.dispatch_inv _ hlen
      · simpa [VQueue.step, hmem] using h

theorem VQueue.run_inv (q : VQueue) (es : List QEvent) (h : q.Inv) :
    (q.run es).Inv := by
  induction es generalizing q with
  | nil => simpa [VQueue.run] using h
  | cons e es ih =>
      have : (q.step e).run es = q.run (e :: es) := by
        simp [VQueue.run, List.foldl_cons]
      rw [← this]
      exact ih _ (VQueue.step_inv q e h)

theorem VQueue.init_inv (conc : ℕ) : (VQueue.init conc).Inv := by
  constructor
  · simp [VQueue.init]
  · intro h
    simp [VQueue.init] at h

/-!
## `lib/throttle.js`: the Throttle
-/

/-- Mutable throttle state (tunables plus rate-tracking state plus the
request queue), as set up by the `Throttle` constructor. -/
structure ThrottleState where
  enabled : Bool
  concurrency : ℕ
  requestRateCapacity : ℚ
  rateCheckInterval : ℚ
  queueTolerance : ℕ
  requestQueue : VQueue
  /-- Field `this.lastCheck`, an hrtime instant, kept as nanoseconds. -/
  lastCheck : ℕ
  mostRecentRequestRate : ℚ
  requestsPerCheckInterval : ℕ
  requestsHandled : ℕ
  deriving Repr, DecidableEq

/-- The `Throttle` constructor: tunables from `options`, a fresh vasync
queue, `lastCheck` at the construction instant, rate `0.0`, counter 0. -/
def ThrottleState.create (enabled : Bool) (concurrency : ℕ)
    (requestRateCapacity rateCheckInterval : ℚ) (queueTolerance : ℕ)
    (now : ℕ) : ThrottleState :=
  { enabled := enabled
    concurrency := concurrency
    requestRateCapacity := requestRateCapacity
    rateCheckInterval := rateCheckInterval
    queueTolerance := queueTolerance
    requestQueue := VQueue.init concurrency
    lastCheck := now
    mostRecentRequestRate := 0
    requestsPerCheckInterval := 0
    requestsHandled := 0 }

/-- The `elapsedSec` figure `throttle.js` computes: it reads only the
nanosecond component (`[1]`) of the hrtime difference and divides by
10^9, so whole elapsed seconds are dropped. -/
def ThrottleState.elapsedSecCode (t : ThrottleState) (now : ℕ) : ℚ :=
  (((hrtimeDiff now t.lastCheck).ns : ℕ) : ℚ) / ((10 : ℚ) ^ 9)

/-- Model of `Throttle.prototype.computeRequestRate`: divides the arrival counter
by `elapsed[1] / 10^9`, returning 0 (and leaving `lastCheck` unchanged)
when that figure is exactly zero; otherwise `lastCheck` is advanced to
the check instant.  Returns the rate and the new `lastCheck`. -/
def ThrottleState.computeRequestRate (t : ThrottleState) (now : ℕ) : ℚ × ℕ :=
  let elapsedSec := t.elapsedSecCode now
  if elapsedSec = 0 then (0, t.lastCheck)
  else ((t.requestsPerCheckInterval : ℚ) / elapsedSec, now)

/-- A request descriptor: method and url for observability, and the
mutable `throttleStartTime` slot `wait` writes (absent until written). -/
structure Req where
  method : String
  url : String
  throttleStartTime : Option ℕ
  deriving Repr, DecidableEq

/-- Model of `Throttle.prototype.computeRequestLatency`: asserts that
`req.throttleStartTime` is present, then returns the elapsed time since
it.  The assertion failure is modelled as `none`. -/
def computeRequestLatency (req : Req) (now : ℕ) : Option ℕ :=
  match req.throttleStartTime with
  | none => none
  | some t0 => some (now - t0)

/-- A dtrace probe firing, with the arguments the probe reports. -/
inductive Probe where
  | request_rate_checked (rate : ℚ)
  | request_received (method url : String) (qlen : ℕ)
  | request_throttled (qlen : ℕ) (rate : ℚ) (url method : String)
  | queue_status (queuedLen npending : ℕ)
  deriving Repr, DecidableEq

/-- A synchronous invocation of the `next` continuation by `wait`:
either `next(new ThrottledError())` or a plain `next()`. -/
inductive NextCall where
  | withThrottledError
  | noError
  deriving Repr, DecidableEq

/-- Everything one call to `Throttle.prototype.wait` produces: the new
throttle state, the (possibly updated) request, the `next` invocation
`wait` itself performed (if any), the task pushed onto the request
queue (if any; that task invokes `next()` when the queue later runs
it), and the dtrace probes fired. -/
structure WaitResult where
  throttle : ThrottleState
  req : Req
  nextNow : Option NextCall
  queuedTask : Option ℕ
  probes : List Probe
  deriving Repr, DecidableEq

/-- The first phase of `wait`: `self.requestsPerCheckInterval++`, then,
if the code's `elapsedSec` figure exceeds `rateCheckInterval`, recompute
and cache the request rate, zero the counter, and fire
`request_rate_checked`. -/
def ThrottleState.afterArrival (t : ThrottleState) (now : ℕ) :
    ThrottleState × List Probe :=
  let t1 : ThrottleState :=
    { t with requestsPerCheckInterval := t.requestsPerCheckInterval + 1 }
  if t1.rateCheckInterval < t1.elapsedSecCode now then
    let p := t1.computeRequestRate now
    ({ t1 with
        mostRecentRequestRate := p.1
        lastCheck := p.2
        requestsPerCheckInterval := 0 },
      [Probe.request_rate_checked p.1])
  else (t1, [])

/-- The request rate in force when `wait` evaluates its admission
policy: `mostRecentRequestRate` after the arrival/recheck phase. -/
def ThrottleState.rateAtCheck (t : ThrottleState) (now : ℕ) : ℚ :=
  ((t.afterArrival now).1).mostRecentRequestRate

/-- Model of `Throttle.prototype.wait`.  `taskId` identifies the work item a
queue push would enqueue. -/
def ThrottleState.wait (t : ThrottleState) (req : Req) (now taskId : ℕ) :
    WaitResult :=
  let a := t.afterArrival now
  let t2 := a.1
  let qlen := t2.requestQueue.length
  let probes1 := a.2 ++ [Probe.request_received req.method req.url qlen]
  let throttling :=
    t2.requestRateCapacity < t2.mostRecentRequestRate ∧ t2.queueTolerance ≤ qlen
  let probes2 :=
    if throttling then
      probes1 ++
        [Probe.request_throttled qlen t2.mostRecentRequestRate req.url req.method]
    else probes1
  if throttling ∧ t2.enabled = true then
    { throttle := t2
      req := req
      nextNow := some NextCall.withThrottledError
      queuedTask := none
      probes := probes2 }
  else
    let req2 : Req := { req with throttleStartTime := some now }
    let t3 : ThrottleState :=
      if t2.enabled then
        { t2 with requestQueue := t2.requestQueue.step (QEvent.push taskId) }
      else t2
    { throttle := t3
      req := req2
      nextNow := if t2.enabled then none else some NextCall.noError
      queuedTask := if t2.enabled then some taskId else none
      probes := probes2 ++
        [Probe.queue_status t3.requestQueue.queued.length
          t3.requestQueue.running.length] }

/-!
## `lib/check_stream.js`: the CheckStream guard

The guard is a `stream.Writable`.  Chunks reach `_write` only while the
stream is neither finished (ended normally) nor errored (a `_write`
callback completed with an error); that delivery contract belongs to
Node's stream machinery, an external dependency, and is embedded here as
the `finished` / `errored` gates of `writeStep`.  Everything past those
gates is `check_stream.js` itself.
-/

/-- Errors a `_write` callback can carry. -/
inductive JsErr where
  | maxSizeExceeded (maxBytes : ℕ)
  deriving Repr, DecidableEq

/-- Lifecycle events `check_stream.js` emits. -/
inductive Signal where
  | done
  | timeout
  | length_exceeded (bytes : ℕ)
  deriving Repr, DecidableEq

/-- What `CheckStream.prototype.digest` returns: the raw digest buffer,
or its text rendering under the requested encoding. -/
inductive DigestVal where
  | buffer (bytes : List ℕ)
  | encoded (bytes : List ℕ) (encoding : String)
  deriving Repr, DecidableEq

/-- The return value `ret = encoding ? _digest.toString(encoding) : _digest` (a Buffer is
always truthy). -/
def digestRet (d : List ℕ) : Option String → DigestVal
  | none => DigestVal.buffer d
  | some e => DigestVal.encoded d e

/-- State of one `CheckStream` instance together with the external
byte-throughput counters it increments. -/
structure CheckStream where
  algorithm : String
  /-- the `opts.inbound` value the constructor was given. -/
  optsInbound : Bool
  /-- name of the collector counter `this.counter` points at. -/
  counterName : String
  /-- Field `this.bytes`, cumulative chunk length. -/
  bytes : ℕ
  /-- bytes fed to the crypto hash so far (injective model of md5). -/
  hashData : List ℕ
  /-- how many times `hash.digest` has been called on this instance. -/
  finalizeCount : ℕ
  maxBytes : ℕ
  timeoutMs : ℕ
  /-- whether the idle timer is currently armed. -/
  timerArmed : Bool
  /-- Field `this._dead`. -/
  dead : Bool
  /-- false once `abandon` has run `removeAllListeners`. -/
  listenersAttached : Bool
  /-- Field `this._digest`. -/
  digestMemo : Option (List ℕ)
  /-- the external `muskie_received_bytes` counter. -/
  received : ℕ
  /-- the external `muskie_sent_bytes` counter. -/
  sent : ℕ
  /-- the Writable has emitted `finish` (stream ended). -/
  finished : Bool
  /-- a `_write` callback completed with an error. -/
  errored : Bool
  deriving Repr, DecidableEq

/-- The value of `this.inbound` at the constructor's branch:
`opts.inbound` is asserted but never assigned onto `this`, so the read
yields JS `undefined`. -/
def thisInboundAtBranch : Option Bool := none

/-- JS truthiness of a possibly-undefined boolean property. -/
def jsTruthy : Option Bool → Bool
  | none => false
  | some b => b

/-- The `CheckStream` constructor. -/
def CheckStream.init (algorithm : Option String) (maxBytes timeoutMs : ℕ)
    (inbound : Bool) : CheckStream :=
  { algorithm := algorithm.getD "md5"
    optsInbound := inbound
    counterName :=
      if jsTruthy thisInboundAtBranch then "muskie_received_bytes"
      else "muskie_sent_bytes"
    bytes := 0
    hashData := []
    finalizeCount := 0
    maxBytes := maxBytes
    timeoutMs := timeoutMs
    timerArmed := true
    dead := false
    listenersAttached := true
    digestMemo := none
    received := 0
    sent := 0
    finished := false
    errored := false }

/-- Model of `this.counter.add(n)`: bump whichever external counter the
constructor selected. -/
def CheckStream.counterAdd (s : CheckStream) (n : ℕ) : CheckStream :=
  if s.counterName = "muskie_received_bytes" then
    { s with received := s.received + n }
  else { s with sent := s.sent + n }

/-- Emission: `emit` delivers a signal only while listeners are attached
(`abandon` detaches them). -/
def CheckStream.emitIf (s : CheckStream) (sig : Signal) : List Signal :=
  if s.listenersAttached then [sig] else []

/-- Observable output of one event: signals delivered, the `_write`
callback invocation (`some none` = `cb()`, `some (some e)` = `cb(e)`,
`none` = no callback), and a digest return value. -/
structure CSOut where
  signals : List Signal
  cb : Option (Option JsErr)
  ret : Option DigestVal
  deriving Repr, DecidableEq

/-- Model of `CheckStream.prototype._write`, behind the Writable delivery
gates. -/
def CheckStream.writeStep (s : CheckStream) (chunk : List ℕ) :
    CheckStream × CSOut :=
  if s.finished || s.errored then (s, ⟨[], none, none⟩)
  else if s.dead then (s, ⟨[], some none, none⟩)
  else
    let s1 : CheckStream :=
      { s with
          timerArmed := false
          hashData := s.hashData ++ chunk
          bytes := s.bytes + chunk.length }
    let s2 := s1.counterAdd chunk.length
    if s2.maxBytes < s2.bytes then
      ({ s2 with errored := !s2.dead },
        ⟨s2.emitIf (Signal.length_exceeded s2.bytes),
          some (if s2.dead then none else some (JsErr.maxSizeExceeded s2.maxBytes)),
          none⟩)
    else ({ s2 with timerArmed := true }, ⟨[], some none, none⟩)

/-- Model of `CheckStream.prototype.abandon`: set `_dead`, cancel the idle timer,
detach the error/finish/length_exceeded/timeout listeners. -/
def CheckStream.abandonStep (s : CheckStream) : CheckStream :=
  { s with dead := true, timerArmed := false, listenersAttached := false }

/-- Model of `CheckStream.prototype.digest`: cancel the timer, finalize the hash
once (memoised in `_digest`), return the buffer or its encoding. -/
def CheckStream.digestStep (s : CheckStream) (encoding : Option String) :
    CheckStream × DigestVal :=
  let s1 : CheckStream := { s with timerArmed := false }
  match s1.digestMemo with
  | none =>
      ({ s1 with
          digestMemo := some s1.hashData
          finalizeCount := s1.finalizeCount + 1 },
        digestRet s1.hashData encoding)
  | some d => (s1, digestRet d encoding)

/-- The Writable `finish` event: the stream ends; the `once('finish')`
handler (if still attached) finalizes the digest and emits `done`. -/
def CheckStream.finishStep (s : CheckStream) : CheckStream × CSOut :=
  if s.listenersAttached then
    match s.digestMemo with
    | none =>
        ({ s with
            finished := true
            digestMemo := some s.hashData
            finalizeCount := s.finalizeCount + 1 },
          ⟨[Signal.done], none, none⟩)
    | some _ => ({ s with finished := true }, ⟨[Signal.done], none, none⟩)
  else ({ s with finished := true }, ⟨[], none, none⟩)

/-- The idle timer expires: only an armed timer fires, and the
`timeout` signal is delivered only to attached listeners. -/
def CheckStream.timerFireStep (s : CheckStream) : CheckStream × CSOut :=
  if s.timerArmed then
    ({ s with timerArmed := false },
      ⟨s.emitIf Signal.timeout, none, none⟩)
  else (s, ⟨[], none, none⟩)

/-- Events a `CheckStream` reacts to. -/
inductive CSEvent where
  | write (chunk : List ℕ)
  | abandonEv
  | finishEv
  | digestEv (encoding : Option String)
  | timerFire
  deriving Repr, DecidableEq

/-- One transition of the guard. -/
def CSStep (s : CheckStream) : CSEvent → CheckStream × CSOut
  | .write c => s.writeStep c
  | .abandonEv => (s.abandonStep, ⟨[], none, none⟩)
  | .finishEv => s.finishStep
  | .digestEv enc =>
      let p := s.digestStep enc
      (p.1, ⟨[], none, some p.2⟩)
  | .timerFire => s.timerFireStep

/-- Run the guard through a list of events, collecting the per-event
outputs. -/
def csRun : CheckStream → List CSEvent → CheckStream × List CSOut
  | s, [] => (s, [])
  | s, e :: es =>
      let p := CSStep s e
      let r := csRun p.1 es
      (r.1, p.2 :: r.2)

/-- Recognize a `length_exceeded` signal. -/
def Signal.isLenExceeded : Signal → Bool
  | .length_exceeded _ => true
  | _ => false

/-- Total number of `length_exceeded` signals delivered across a list
of per-event outputs. -/
def countLenExceeded (outs : List CSOut) : ℕ :=
  (outs.map (fun o => (o.signals.filter Signal.isLenExceeded).length)).sum

/-- Cumulative length of a chunk sequence. -/
def totalLen (chunks : List (List ℕ)) : ℕ :=
  (chunks.map List.length).sum

/-- A list of chunk deliveries as guard events. -/
def writeEvents (chunks : List (List ℕ)) : List CSEvent :=
  chunks.map CSEvent.write

/-!
## Helper lemmas about the arrival/recheck phase of `wait`
-/

theorem ThrottleState.afterArrival_enabled (t : ThrottleState) (now : ℕ) :
    (t.afterArrival now).1.enabled = t.enabled := by
  simp only [ThrottleState.afterArrival]
  split <;> rfl

theorem ThrottleState.afterArrival_capacity (t : ThrottleState) (now : ℕ) :
    (t.afterArrival now).1.requestRateCapacity = t.requestRateCapacity := by
  simp only [ThrottleState.afterArrival]
  split <;> rfl

theorem ThrottleState.afterArrival_tolerance (t : ThrottleState) (now : ℕ) :
    (t.afterArrival now).1.queueTolerance = t.queueTolerance := by
  simp only [ThrottleState.afterArrival]
  split <;> rfl

theorem ThrottleState.afterArrival_queue (t : ThrottleState) (now : ℕ) :
    (t.afterArrival now).1.requestQueue = t.requestQueue := by
  simp only [ThrottleState.afterArrival]
  split <;> rfl

theorem ThrottleState.afterArrival_concurrency (t : ThrottleState) (now : ℕ) :
    (t.afterArrival now).1.concurrency = t.concurrency := by
  simp only [ThrottleState.afterArrival]
  split <;> rfl

theorem ThrottleState.afterArrival_interval (t : ThrottleState) (now : ℕ) :
    (t.afterArrival now).1.rateCheckInterval = t.rateCheckInterval := by
  simp only [ThrottleState.afterArrival]
  split <;> rfl

theorem ThrottleState.afterArrival_handled (t : ThrottleState) (now : ℕ) :
    (t.afterArrival now).1.requestsHandled = t.requestsHandled := by
  simp only [ThrottleState.afterArrival]
  split <;> rfl

theorem ThrottleState.afterArrival_rate (t : ThrottleState) (now : ℕ) :
    (t.afterArrival now).1.mostRecentRequestRate = t.rateAtCheck now := rfl

/-- The counter after the arrival phase: either it was just incremented
(no recomputation) and the cached rate is untouched, or a recomputation
fired, zeroing it and caching the freshly computed rate. -/
theorem ThrottleState.afterArrival_counter (t : ThrottleState) (now : ℕ) :
    ((t.afterArrival now).1.requestsPerCheckInterval =
        t.requestsPerCheckInterval + 1 ∧
      (t.afterArrival now).1.mostRecentRequestRate = t.mostRecentRequestRate) ∨
    ((t.afterArrival now).1.requestsPerCheckInterval = 0 ∧
      (t.afterArrival now).1.mostRecentRequestRate = t.rateAtCheck now) := by
  rw [← ThrottleState.afterArrival_rate]
  simp only [ThrottleState.afterArrival]
  split
  · right
    simp
  · left
    simp

/-- Case analysis of one `wait` call, with the admission condition
phrased over the pre-state (equal to the post-recheck fields the code
reads). -/
theorem ThrottleState.wait_cases (t : ThrottleState) (req : Req)
    (now taskId : ℕ) :
    (((t.requestRateCapacity < t.rateAtCheck now ∧
          t.queueTolerance ≤ t.requestQueue.length) ∧ t.enabled = true) →
      (t.wait req now taskId).nextNow = some NextCall.withThrottledError ∧
        (t.wait req now taskId).queuedTask = none ∧
        (t.wait req now taskId).throttle = (t.afterArrival now).1 ∧
        (t.wait req now taskId).req = req) ∧
    (¬ ((t.requestRateCapacity < t.rateAtCheck now ∧
          t.queueTolerance ≤ t.requestQueue.length) ∧ t.enabled = true) →
      (t.wait req now taskId).nextNow =
          (if t.enabled then none else some NextCall.noError) ∧
        (t.wait req now taskId).queuedTask =
          (if t.enabled then some taskId else none) ∧
        (t.wait req now taskId).req = { req with throttleStartTime := some now } ∧
        (t.wait req now taskId).throttle.requestQueue =
          (if t.enabled then t.requestQueue.step (QEvent.push taskId)
           else t.requestQueue)) := by
  simp only [ThrottleState.wait]
  simp only [ThrottleState.afterArrival_enabled, ThrottleState.afterArrival_capacity,
    ThrottleState.afterArrival_tolerance, ThrottleState.afterArrival_queue,
    ThrottleState.afterArrival_rate]
  constructor
  · intro h
    rw [if_pos h]
    simp
  · intro h
    rw [if_neg h]
    by_cases he : t.enabled
    · simp [he, ThrottleState.afterArrival_queue]
    · simp [he, ThrottleState.afterArrival_queue]

/-!
## Concrete instances used to exercise the throttle
-/

/-- A throttle state one rejection away: enabled, cached rate 2 over
capacity 1, one running task against queue tolerance 1, clock at
`lastCheck`. -/
def tReject : ThrottleState :=
  { enabled := true
    concurrency := 1
    requestRateCapacity := 1
    rateCheckInterval := 1
    queueTolerance := 1
    requestQueue := ⟨1, [], [0]⟩
    lastCheck := 0
    mostRecentRequestRate := 2
    requestsPerCheckInterval := 0
    requestsHandled := 0 }

/-- The same state in passive mode. -/
def tPassive : ThrottleState :=
  { tReject with enabled := false }

/-- A throttle state for exercising rate recomputation: 10 arrivals
recorded, cached rate 0, `lastCheck` at instant 0, 1 s interval, empty
queue. -/
def tElapsed : ThrottleState :=
  { tReject with
      mostRecentRequestRate := 0
      requestsPerCheckInterval := 10
      requestQueue := ⟨1, [], []⟩ }

/-- The same state with a half-second check interval. -/
def tElapsedHalf : ThrottleState :=
  { tElapsed with rateCheckInterval := 1 / 2 }

/-- A freshly arrived request: no `throttleStartTime` yet. -/
def reqFresh : Req :=
  ⟨"GET", "/foo", none⟩

/-!
## The claims about the throttle
-/

/-- C1: `Throttle.wait` rejects a request — invokes `next` with a
`ThrottledError` — iff the request rate in force exceeds
`requestRateCapacity`, the queue's length (pending + running) is at
least `queueTolerance`, and the throttle is enabled; on rejection
nothing reaches the queue so the work item never runs, and whenever the
rate is at most the capacity no request is rejected regardless of queue
depth. -/
theorem wait_rejects_iff (t : ThrottleState) (req : Req) (now taskId : ℕ) :
    ((t.wait req now taskId).nextNow = some NextCall.withThrottledError ↔
      (t.requestRateCapacity < t.rateAtCheck now ∧
        t.queueTolerance ≤ t.requestQueue.length ∧ t.enabled = true)) ∧
    ((t.wait req now taskId).nextNow = some NextCall.withThrottledError →
      (t.wait req now taskId).queuedTask = none ∧
        (t.wait req now taskId).throttle.requestQueue = t.requestQueue) ∧
    (t.rateAtCheck now ≤ t.requestRateCapacity →
      (t.wait req now taskId).nextNow ≠ some NextCall.withThrottledError) := by
  have hc := ThrottleState.wait_cases t req now taskId
  by_cases h : (t.requestRateCapacity < t.rateAtCheck now ∧
      t.queueTolerance ≤ t.requestQueue.length) ∧ t.enabled = true
  · obtain ⟨h1, h2, h3, _⟩ := hc.1 h
    refine ⟨⟨fun _ => ⟨h.1.1, h.1.2, h.2⟩, fun _ => h1⟩, ?_, ?_⟩
    · intro _
      refine ⟨h2, ?_⟩
      rw [h3]
      exact ThrottleState.afterArrival_queue t now
    · intro hle _
      exact absurd h.1.1 (not_lt.mpr hle)
  · have hiff : ¬ (t.requestRateCapacity < t.rateAtCheck now ∧
        t.queueTolerance ≤ t.requestQueue.length ∧ t.enabled = true) := by
      intro hx
      exact h ⟨⟨hx.1, hx.2.1⟩, hx.2.2⟩
    obtain ⟨h1, _, _, _⟩ := hc.2 h
    have hne : (t.wait req now taskId).nextNow ≠
        some NextCall.withThrottledError := by
      rw [h1]
      by_cases he : t.enabled <;> simp [he]
    exact ⟨⟨fun hx => absurd hx hne, fun hx => absurd hx hiff⟩,
      fun hx => absurd hx hne, fun _ => hne⟩

/-- Witness for C1 at a concrete rejecting instance. -/
theorem wait_rejects_iff_witness :
    (tReject.wait reqFresh 0 7).queuedTask = none ∧
    (tReject.wait reqFresh 0 7).throttle.requestQueue = tReject.requestQueue :=
  (wait_rejects_iff tReject reqFresh 0 7).2.1 (by
    simp [ThrottleState.wait, ThrottleState.afterArrival,
      ThrottleState.elapsedSecCode, hrtimeDiff, hrtimeOfNs, nsPerSec,
      VQueue.length, tReject, reqFresh]
    norm_num)

/-- C2 (code bug): the claim says the recomputation trigger and the
rate's divisor are the total elapsed seconds since `lastCheck`.  The
code reads only `elapsed[1]`, the sub-second nanosecond remainder of
the hrtime diff: at 2.5 s elapsed with a 1 s interval it computes 0.5 s
and does not recompute at all (rate stays 0, counter keeps growing,
`lastCheck` stays put); and when the remainder alone does exceed the
interval, the divisor is the remainder (rate 110/9 for 11 requests over
2.9 s instead of 110/29). -/
theorem wait_rate_drops_whole_seconds :
    trueElapsedSec 2500000000 0 = 5 / 2 ∧
    (1 : ℚ) < 5 / 2 ∧
    tElapsed.elapsedSecCode 2500000000 = 1 / 2 ∧
    (tElapsed.wait reqFresh 2500000000 7).throttle.mostRecentRequestRate = 0 ∧
    (tElapsed.wait reqFresh 2500000000 7).throttle.requestsPerCheckInterval
        = 11 ∧
    (tElapsed.wait reqFresh 2500000000 7).throttle.lastCheck = 0 ∧
    trueElapsedSec 2900000000 0 = 29 / 10 ∧
    (tElapsedHalf.wait reqFresh 2900000000 7).throttle.mostRecentRequestRate
        = 110 / 9 ∧
    (11 : ℚ) / (29 / 10) = 110 / 29 ∧
    (110 : ℚ) / 9 ≠ 110 / 29 := by
  refine ⟨by norm_num [trueElapsedSec], by norm_num, ?_, ?_, ?_, ?_,
    by norm_num [trueElapsedSec], ?_, by norm_num, by norm_num⟩
  · simp [ThrottleState.elapsedSecCode, hrtimeDiff, hrtimeOfNs, nsPerSec,
      tElapsed, tReject]
    norm_num
  · simp [ThrottleState.wait, ThrottleState.afterArrival,
      ThrottleState.elapsedSecCode, ThrottleState.computeRequestRate,
      hrtimeDiff, hrtimeOfNs, nsPerSec, VQueue.length, tElapsed, tReject,
      reqFresh]
    norm_num
  · simp [ThrottleState.wait, ThrottleState.afterArrival,
      ThrottleState.elapsedSecCode, ThrottleState.computeRequestRate,
      hrtimeDiff, hrtimeOfNs, nsPerSec, VQueue.length, tElapsed, tReject,
      reqFresh]
    norm_num
  · simp [ThrottleState.wait, ThrottleState.afterArrival,
      ThrottleState.elapsedSecCode, ThrottleState.computeRequestRate,
      hrtimeDiff, hrtimeOfNs, nsPerSec, VQueue.length, tElapsed, tReject,
      reqFresh]
    norm_num
  · simp [ThrottleState.wait, ThrottleState.afterArrival,
      ThrottleState.elapsedSecCode, ThrottleState.computeRequestRate,
      hrtimeDiff, hrtimeOfNs, nsPerSec, VQueue.length, tElapsedHalf,
      tElapsed, tReject, reqFresh]
    norm_num

/-- C4: with `enabled = false`, `wait` neither queues nor rejects —
`next()` runs synchronously with no error and the queue is untouched —
and whenever the would-throttle condition holds, the
`request_throttled` probe still fires. -/
theorem wait_disabled_passive (t : ThrottleState) (req : Req)
    (now taskId : ℕ) (h : t.enabled = false) :
    (t.wait req now taskId).nextNow = some NextCall.noError ∧
    (t.wait req now taskId).queuedTask = none ∧
    (t.wait req now taskId).throttle.requestQueue = t.requestQueue ∧
    ((t.requestRateCapacity < t.rateAtCheck now ∧
        t.queueTolerance ≤ t.requestQueue.length) →
      Probe.request_throttled t.requestQueue.length (t.rateAtCheck now)
          req.url req.method ∈ (t.wait req now taskId).probes) := by
  have hnot : ¬ ((t.requestRateCapacity < t.rateAtCheck now ∧
      t.queueTolerance ≤ t.requestQueue.length) ∧ t.enabled = true) := by
    intro hx
    rw [h] at hx
    exact absurd hx.2 (by simp)
  obtain ⟨h1, h2, _, h4⟩ := (ThrottleState.wait_cases t req now taskId).2 hnot
  refine ⟨by rw [h1, h]; rfl, by rw [h2, h]; rfl, by rw [h4, h]; rfl, ?_⟩
  intro hcond
  simp only [ThrottleState.wait, ThrottleState.afterArrival_enabled,
    ThrottleState.afterArrival_capacity, ThrottleState.afterArrival_tolerance,
    ThrottleState.afterArrival_queue, ThrottleState.afterArrival_rate]
  rw [if_neg hnot, if_pos hcond]
  simp [h]

/-- Witness for C4: a passive throttle whose would-throttle condition
holds still signals `request_throttled` while letting the request
proceed. -/
theorem wait_disabled_passive_witness :
    (tPassive.wait reqFresh 0 7).nextNow = some NextCall.noError ∧
    Probe.request_throttled tPassive.requestQueue.length
        (tPassive.rateAtCheck 0) reqFresh.url reqFresh.method
      ∈ (tPassive.wait reqFresh 0 7).probes := by
  have hw := wait_disabled_passive tPassive reqFresh 0 7 rfl
  refine ⟨hw.1, hw.2.2.2 ⟨?_, ?_⟩⟩
  · show tPassive.requestRateCapacity < tPassive.rateAtCheck 0
    simp [ThrottleState.rateAtCheck, ThrottleState.afterArrival,
      ThrottleState.elapsedSecCode, hrtimeDiff, hrtimeOfNs, nsPerSec,
      tPassive, tReject]
    norm_num
  · show tPassive.queueTolerance ≤ tPassive.requestQueue.length
    simp [tPassive, tReject, VQueue.length]

/-- C10: an enabled rejection mutates only the rate-tracking state: the
request descriptor, the queue, the tunables and `requestsHandled` are
untouched, `throttleStartTime` stays unwritten, and
`computeRequestLatency`'s presence precondition fails on the rejected
request. -/
theorem wait_reject_frame (t : ThrottleState) (req : Req)
    (now taskId now2 : ℕ)
    (h : (t.wait req now taskId).nextNow = some NextCall.withThrottledError)
    (hreq : req.throttleStartTime = none) :
    (t.wait req now taskId).req = req ∧
    (t.wait req now taskId).queuedTask = none ∧
    (t.wait req now taskId).throttle.requestQueue = t.requestQueue ∧
    (t.wait req now taskId).throttle.enabled = t.enabled ∧
    (t.wait req now taskId).throttle.concurrency = t.concurrency ∧
    (t.wait req now taskId).throttle.requestRateCapacity
        = t.requestRateCapacity ∧
    (t.wait req now taskId).throttle.rateCheckInterval
        = t.rateCheckInterval ∧
    (t.wait req now taskId).throttle.queueTolerance = t.queueTolerance ∧
    (t.wait req now taskId).throttle.requestsHandled = t.requestsHandled ∧
    (((t.wait req now taskId).throttle.requestsPerCheckInterval
          = t.requestsPerCheckInterval + 1 ∧
        (t.wait req now taskId).throttle.mostRecentRequestRate
          = t.mostRecentRequestRate) ∨
      ((t.wait req now taskId).throttle.requestsPerCheckInterval = 0 ∧
        (t.wait req now taskId).throttle.mostRecentRequestRate
          = t.rateAtCheck now)) ∧
    computeRequestLatency (t.wait req now taskId).req now2 = none := by
  have hc := ThrottleState.wait_cases t req now taskId
  by_cases hcond : (t.requestRateCapacity < t.rateAtCheck now ∧
      t.queueTolerance ≤ t.requestQueue.length) ∧ t.enabled = true
  · obtain ⟨_, h2, h3, h4⟩ := hc.1 hcond
    rw [h3, h4]
    refine ⟨rfl, h2, ThrottleState.afterArrival_queue t now,
      ThrottleState.afterArrival_enabled t now,
      ThrottleState.afterArrival_concurrency t now,
      ThrottleState.afterArrival_capacity t now,
      ThrottleState.afterArrival_interval t now,
      ThrottleState.afterArrival_tolerance t now,
      ThrottleState.afterArrival_handled t now,
      ThrottleState.afterArrival_counter t now, ?_⟩
    rw [computeRequestLatency, hreq]
  · obtain ⟨h1, _, _, _⟩ := hc.2 hcond
    rw [h1] at h
    by_cases he : t.enabled <;> simp [he] at h

/-- Witness for C10 at a concrete rejecting instance. -/
theorem wait_reject_frame_witness :
    (tReject.wait reqFresh 0 7).queuedTask = none ∧
    computeRequestLatency (tReject.wait reqFresh 0 7).req 5 = none := by
  have hw := wait_reject_frame tReject reqFresh 0 7 5 (by
    simp [ThrottleState.wait, ThrottleState.afterArrival,
      ThrottleState.elapsedSecCode, hrtimeDiff, hrtimeOfNs, nsPerSec,
      VQueue.length, tReject, reqFresh]
    norm_num) rfl
  exact ⟨hw.2.1, hw.2.2.2.2.2.2.2.2.2.2⟩

/-!
## The claim about the admission queue
-/

theorem VQueue.step_concurrency (q : VQueue) (e : QEvent) :
    (q.step e).concurrency = q.concurrency := by
  cases e with
  | push id => rfl
  | complete id =>
      by_cases hmem : id ∈ q.running <;>
        simp [VQueue.step, VQueue.dispatch, hmem]

theorem VQueue.run_concurrency (q : VQueue) (es : List QEvent) :
    (q.run es).concurrency = q.concurrency := by
  induction es generalizing q with
  | nil => rfl
  | cons e es ih =>
      have h : (q.step e).run es = q.run (e :: es) := by
        simp [VQueue.run, List.foldl_cons]
      rw [← h, ih, VQueue.step_concurrency]

/-- A dispatch loop entered with every slot occupied moves nothing. -/
theorem dispatchAux_full (conc : ℕ) (running l : List ℕ)
    (h : ¬ running.length < conc) :
    dispatchAux conc running l = (running, l) := by
  cases l with
  | nil => rfl
  | cons x xs => simp [dispatchAux, h]

/-- Completing a running task while tasks are pending starts exactly
the oldest pending task and leaves the rest in order. -/
theorem VQueue.complete_starts_oldest (q : VQueue) (id x : ℕ) (xs : List ℕ)
    (hInv : q.Inv) (hq : q.queued = x :: xs) (hmem : id ∈ q.running) :
    (q.step (QEvent.complete id)).running = x :: q.running.erase id ∧
      (q.step (QEvent.complete id)).queued = xs := by
  have hfull : q.running.length = q.concurrency := by
    apply hInv.2
    rw [hq]
    simp
  have herase : (q.running.erase id).length = q.running.length - 1 :=
    List.length_erase_of_mem hmem
  have hpos : 0 < q.running.length :=
    List.length_pos.mpr (List.ne_nil_of_mem hmem)
  have hlt : (q.running.erase id).length < q.concurrency := by
    rw [herase, ← hfull]
    omega
  have hstop : ¬ (x :: q.running.erase id).length < q.concurrency := by
    simp only [List.length_cons, herase, ← hfull]
    omega
  have hstep : dispatchAux q.concurrency (q.running.erase id) (x :: xs)
      = (x :: q.running.erase id, xs) := by
    rw [show dispatchAux q.concurrency (q.running.erase id) (x :: xs)
        = if (q.running.erase id).length < q.concurrency
          then dispatchAux q.concurrency (x :: q.running.erase id) xs
          else (q.running.erase id, x :: xs) from rfl,
      if_pos hlt, dispatchAux_full _ _ _ hstop]
  constructor <;>
    simp [VQueue.step, if_pos hmem, VQueue.dispatch, hq, hstep]

/-- C3: for every pattern of submissions and completions, the request
queue never runs more than `concurrency` work items at once, and when a
running item completes while items are pending, the oldest pending item
is the one started, the remaining pending items keeping their FIFO
order. -/
theorem admission_queue_bounded_fifo (conc : ℕ) (es : List QEvent) :
    ((VQueue.init conc).run es).running.length ≤ conc ∧
    (∀ id x xs,
      ((VQueue.init conc).run es).queued = x :: xs →
      id ∈ ((VQueue.init conc).run es).running →
      (((VQueue.init conc).run es).step (QEvent.complete id)).running
          = x :: ((VQueue.init conc).run es).running.erase id ∧
        (((VQueue.init conc).run es).step (QEvent.complete id)).queued
          = xs) := by
  have hInv := VQueue.run_inv (VQueue.init conc) es (VQueue.init_inv conc)
  have hconc : ((VQueue.init conc).run es).concurrency = conc := by
    rw [VQueue.run_concurrency]
    rfl
  constructor
  · exact le_of_le_of_eq hInv.1 hconc
  · intro id x xs hq hmem
    exact VQueue.complete_starts_oldest _ id x xs hInv hq hmem

/-- Witness for C3: a burst of two submissions at concurrency 1 runs
one task, queues the other, and the completion of the first starts the
queued one. -/
theorem admission_queue_bounded_fifo_witness :
    ((VQueue.init 1).run [QEvent.push 0, QEvent.push 1]).running.length ≤ 1 ∧
    ((((VQueue.init 1).run [QEvent.push 0, QEvent.push 1]).step
          (QEvent.complete 0)).running
        = 1 :: ((VQueue.init 1).run
            [QEvent.push 0, QEvent.push 1]).running.erase 0 ∧
      (((VQueue.init 1).run [QEvent.push 0, QEvent.push 1]).step
          (QEvent.complete 0)).queued = []) :=
  ⟨(admission_queue_bounded_fifo 1 [QEvent.push 0, QEvent.push 1]).1,
    (admission_queue_bounded_fifo 1 [QEvent.push 0, QEvent.push 1]).2 0 1 []
      (by decide) (by decide)⟩

/-!
## Helper lemmas about the CheckStream guard
-/

/-- A guard that is live: not dead, not errored, not finished, with its
listeners attached. -/
def CheckStream.Live (s : CheckStream) : Prop :=
  s.dead = false ∧ s.errored = false ∧ s.finished = false ∧
    s.listenersAttached = true

theorem CheckStream.counterAdd_dead (s : CheckStream) (n : ℕ) :
    (s.counterAdd n).dead = s.dead := by
  unfold CheckStream.counterAdd
  split <;> rfl

theorem CheckStream.counterAdd_errored (s : CheckStream) (n : ℕ) :
    (s.counterAdd n).errored = s.errored := by
  unfold CheckStream.counterAdd
  split <;> rfl

theorem CheckStream.counterAdd_finished (s : CheckStream) (n : ℕ) :
    (s.counterAdd n).finished = s.finished := by
  unfold CheckStream.counterAdd
  split <;> rfl

theorem CheckStream.counterAdd_listeners (s : CheckStream) (n : ℕ) :
    (s.counterAdd n).listenersAttached = s.listenersAttached := by
  unfold CheckStream.counterAdd
  split <;> rfl

theorem CheckStream.counterAdd_bytes (s : CheckStream) (n : ℕ) :
    (s.counterAdd n).bytes = s.bytes := by
  unfold CheckStream.counterAdd
  split <;> rfl

theorem CheckStream.counterAdd_maxBytes (s : CheckStream) (n : ℕ) :
    (s.counterAdd n).maxBytes = s.maxBytes := by
  unfold CheckStream.counterAdd
  split <;> rfl

theorem CheckStream.counterAdd_hashData (s : CheckStream) (n : ℕ) :
    (s.counterAdd n).hashData = s.hashData := by
  unfold CheckStream.counterAdd
  split <;> rfl

theorem CheckStream.counterAdd_timerArmed (s : CheckStream) (n : ℕ) :
    (s.counterAdd n).timerArmed = s.timerArmed := by
  unfold CheckStream.counterAdd
  split <;> rfl

theorem CheckStream.counterAdd_digestMemo (s : CheckStream) (n : ℕ) :
    (s.counterAdd n).digestMemo = s.digestMemo := by
  unfold CheckStream.counterAdd
  split <;> rfl

theorem CheckStream.counterAdd_finalizeCount (s : CheckStream) (n : ℕ) :
    (s.counterAdd n).finalizeCount = s.finalizeCount := by
  unfold CheckStream.counterAdd
  split <;> rfl

/-- A chunk that keeps the cumulative count within the budget: no
signal, successful callback, guard stays live, bytes accumulate. -/
theorem CheckStream.writeStep_under (s : CheckStream) (c : List ℕ)
    (hs : s.Live) (hb : s.bytes + c.length ≤ s.maxBytes) :
    (s.writeStep c).2 = ⟨[], some none, none⟩ ∧
      (s.writeStep c).1.Live ∧
      (s.writeStep c).1.bytes = s.bytes + c.length ∧
      (s.writeStep c).1.maxBytes = s.maxBytes := by
  obtain ⟨hd, he, hf, hl⟩ := hs
  unfold CheckStream.writeStep
  simp only [hd, he, hf, Bool.or_self, Bool.false_eq_true, if_false,
    CheckStream.counterAdd_maxBytes, CheckStream.counterAdd_bytes,
    CheckStream.counterAdd_dead, CheckStream.counterAdd_errored,
    CheckStream.counterAdd_finished, CheckStream.counterAdd_listeners]
  rw [if_neg (by simpa using not_lt.mpr hb)]
  refine ⟨rfl, ⟨?_, ?_, ?_, ?_⟩, ?_, ?_⟩ <;>
    simp [CheckStream.counterAdd_dead, CheckStream.counterAdd_errored,
      CheckStream.counterAdd_finished, CheckStream.counterAdd_listeners,
      CheckStream.counterAdd_bytes, CheckStream.counterAdd_maxBytes,
      hd, he, hf, hl]

/-- A chunk that pushes the cumulative count over the budget: one
`length_exceeded` signal reporting the cumulative count, the callback
completes with `MaxSizeExceededError(maxBytes)`, and the stream is now
errored. -/
theorem CheckStream.writeStep_over (s : CheckStream) (c : List ℕ)
    (hs : s.Live) (hb : s.maxBytes < s.bytes + c.length) :
    (s.writeStep c).2 =
        ⟨[Signal.length_exceeded (s.bytes + c.length)],
          some (some (JsErr.maxSizeExceeded s.maxBytes)), none⟩ ∧
      (s.writeStep c).1.errored = true := by
  obtain ⟨hd, he, hf, hl⟩ := hs
  unfold CheckStream.writeStep
  simp only [hd, he, hf, Bool.or_self, Bool.false_eq_true, if_false,
    CheckStream.counterAdd_maxBytes, CheckStream.counterAdd_bytes,
    CheckStream.counterAdd_dead, CheckStream.counterAdd_listeners]
  rw [if_pos (by simpa using hb)]
  constructor
  · simp [CheckStream.emitIf, CheckStream.counterAdd_listeners,
      CheckStream.counterAdd_bytes, CheckStream.counterAdd_maxBytes,
      CheckStream.counterAdd_dead, hd, hl]
  · simp [CheckStream.counterAdd_dead, hd]

/-- Unfolding: `csRun` consumes one event at a time. -/
theorem csRun_cons (s : CheckStream) (e : CSEvent) (es : List CSEvent) :
    csRun s (e :: es) =
      ((csRun (CSStep s e).1 es).1,
        (CSStep s e).2 :: (csRun (CSStep s e).1 es).2) := rfl

/-- Once the stream is errored, further chunk deliveries do nothing. -/
theorem csRun_writes_errored (chunks : List (List ℕ)) :
    ∀ s : CheckStream, s.errored = true →
      (csRun s (writeEvents chunks)).1 = s ∧
        countLenExceeded (csRun s (writeEvents chunks)).2 = 0 ∧
        ∀ o ∈ (csRun s (writeEvents chunks)).2, o.signals = [] := by
  induction chunks with
  | nil =>
      intro s h
      simp [csRun, writeEvents, countLenExceeded]
  | cons c cs ih =>
      intro s h
      have hstep : CSStep s (CSEvent.write c) = (s, ⟨[], none, none⟩) := by
        simp [CSStep, CheckStream.writeStep, h]
      have hrest := ih s h
      rw [show writeEvents (c :: cs) = CSEvent.write c :: writeEvents cs
          from rfl, csRun_cons, hstep]
      refine ⟨hrest.1, ?_, ?_⟩
      · simpa [countLenExceeded] using hrest.2.1
      · intro o ho
        rcases List.mem_cons.mp ho with ho | ho
        · rw [ho]
        · exact hrest.2.2 o ho

/-- Chunks whose cumulative length stays within the budget: no
`length_exceeded` signal, guard stays live, bytes accumulate. -/
theorem csRun_under_budget (chunks : List (List ℕ)) :
    ∀ s : CheckStream, s.Live →
      s.bytes + totalLen chunks ≤ s.maxBytes →
      countLenExceeded (csRun s (writeEvents chunks)).2 = 0 ∧
        (csRun s (writeEvents chunks)).1.Live ∧
        (csRun s (writeEvents chunks)).1.bytes = s.bytes + totalLen chunks ∧
        (csRun s (writeEvents chunks)).1.maxBytes = s.maxBytes := by
  induction chunks with
  | nil =>
      intro s hs hb
      refine ⟨by simp [csRun, writeEvents, countLenExceeded], ?_, ?_, rfl⟩
      · simpa [csRun, writeEvents] using hs
      · simp [csRun, writeEvents, totalLen]
  | cons c cs ih =>
      intro s hs hb
      have htl : totalLen (c :: cs) = c.length + totalLen cs := by
        simp [totalLen]
      have hc : s.bytes + c.length ≤ s.maxBytes := by omega
      obtain ⟨ho, hlive, hbytes, hmax⟩ := CheckStream.writeStep_under s c hs hc
      have hrest := ih (s.writeStep c).1 hlive (by rw [hbytes, hmax]; omega)
      rw [show writeEvents (c :: cs) = CSEvent.write c :: writeEvents cs
          from rfl, csRun_cons]
      have hstep : CSStep s (CSEvent.write c) = s.writeStep c := rfl
      rw [hstep]
      refine ⟨?_, hrest.2.1, ?_, by rw [hrest.2.2.2, hmax]⟩
      · simp [countLenExceeded, ho]
        simpa [countLenExceeded] using hrest.1
      · rw [hrest.2.2.1, hbytes, htl]
        omega

/-- Chunks whose cumulative length reaches `maxBytes + 1` from a live
guard deliver exactly one `length_exceeded`, and the write that does so
completes its callback with `MaxSizeExceededError(maxBytes)`. -/
theorem csRun_crossing (chunks : List (List ℕ)) :
    ∀ s : CheckStream, s.Live →
      s.bytes ≤ s.maxBytes →
      s.bytes + totalLen chunks = s.maxBytes + 1 →
      countLenExceeded (csRun s (writeEvents chunks)).2 = 1 ∧
        ∀ o ∈ (csRun s (writeEvents chunks)).2,
          o.signals.filter Signal.isLenExceeded ≠ [] →
            o.cb = some (some (JsErr.maxSizeExceeded s.maxBytes)) := by
  induction chunks with
  | nil =>
      intro s hs hb0 hb
      exfalso
      simp [totalLen] at hb
      omega
  | cons c cs ih =>
      intro s hs hb0 hb
      have htl : totalLen (c :: cs) = c.length + totalLen cs := by
        simp [totalLen]
      rw [show writeEvents (c :: cs) = CSEvent.write c :: writeEvents cs
          from rfl, csRun_cons,
        show CSStep s (CSEvent.write c) = s.writeStep c from rfl]
      by_cases hc : s.bytes + c.length ≤ s.maxBytes
      · obtain ⟨ho, hlive, hbytes, hmax⟩ := CheckStream.writeStep_under s c hs hc
        have hrest := ih (s.writeStep c).1 hlive (by rw [hbytes, hmax]; omega)
          (by rw [hbytes, hmax]; omega)
        rw [hmax] at hrest
        refine ⟨?_, ?_⟩
        · simp [countLenExceeded, ho]
          simpa [countLenExceeded] using hrest.1
        · intro o hmem hsig
          rcases List.mem_cons.mp hmem with hm | hm
          · exfalso
            rw [hm, ho] at hsig
            simp at hsig
          · exact hrest.2 o hm hsig
      · have hover : s.maxBytes < s.bytes + c.length := by omega
        obtain ⟨ho, herr⟩ := CheckStream.writeStep_over s c hs hover
        have hrest := csRun_writes_errored cs (s.writeStep c).1 herr
        refine ⟨?_, ?_⟩
        · simp [countLenExceeded, ho, Signal.isLenExceeded]
          simpa [countLenExceeded] using hrest.2.1
        · intro o hmem hsig
          rcases List.mem_cons.mp hmem with hm | hm
          · rw [hm, ho]
          · exfalso
            exact hsig (by rw [hrest.2.2 o hm]; rfl)

/-- C5: fed to a running guard, the byte budget is a strict
greater-than check on the cumulative count after each chunk: a chunk
sequence totalling exactly `maxBytes` never signals `length_exceeded`,
a sequence totalling `maxBytes + 1` signals it exactly once and that
chunk's callback completes with `MaxSizeExceededError`; a chunk
delivered to an already-abandoned guard completes with no error. -/
theorem checkstream_budget_strict (alg : Option String) (maxB tmo : ℕ)
    (inb : Bool) (chunks : List (List ℕ)) (c0 : List ℕ) (s0 : CheckStream) :
    (totalLen chunks = maxB →
      countLenExceeded (csRun (CheckStream.init alg maxB tmo inb)
          (writeEvents chunks)).2 = 0) ∧
    (totalLen chunks = maxB + 1 →
      countLenExceeded (csRun (CheckStream.init alg maxB tmo inb)
          (writeEvents chunks)).2 = 1 ∧
        ∀ o ∈ (csRun (CheckStream.init alg maxB tmo inb)
            (writeEvents chunks)).2,
          o.signals.filter Signal.isLenExceeded ≠ [] →
            o.cb = some (some (JsErr.maxSizeExceeded maxB))) ∧
    (s0.dead = true → s0.finished = false → s0.errored = false →
      (s0.writeStep c0).2.cb = some none) := by
  have hlive : (CheckStream.init alg maxB tmo inb).Live :=
    ⟨rfl, rfl, rfl, rfl⟩
  refine ⟨?_, ?_, ?_⟩
  · intro htot
    exact (csRun_under_budget chunks (CheckStream.init alg maxB tmo inb)
      hlive (by simp [CheckStream.init, htot])).1
  · intro htot
    have h := csRun_crossing chunks (CheckStream.init alg maxB tmo inb)
      hlive (by simp [CheckStream.init]) (by simp [CheckStream.init, htot])
    exact ⟨h.1, h.2⟩
  · intro hd hf he
    unfold CheckStream.writeStep
    simp [hd, hf, he]

/-- Witness for C5: with a 2-byte budget, two 1-byte chunks signal
nothing; three signal `length_exceeded` once; a dead guard's chunk
callback carries no error. -/
theorem checkstream_budget_strict_witness :
    countLenExceeded (csRun (CheckStream.init none 2 5 true)
        (writeEvents [[9], [9]])).2 = 0 ∧
    countLenExceeded (csRun (CheckStream.init none 2 5 true)
        (writeEvents [[9], [9], [9]])).2 = 1 ∧
    ((CheckStream.init none 2 5 true).abandonStep.writeStep [9]).2.cb
      = some none :=
  ⟨(checkstream_budget_strict none 2 5 true [[9], [9]] [9]
        (CheckStream.init none 2 5 true).abandonStep).1 rfl,
    ((checkstream_budget_strict none 2 5 true [[9], [9], [9]] [9]
        (CheckStream.init none 2 5 true).abandonStep).2.1 rfl).1,
    (checkstream_budget_strict none 2 5 true [[9], [9], [9]] [9]
        (CheckStream.init none 2 5 true).abandonStep).2.2 rfl rfl rfl⟩

/-- C6: once the guard is dead (abandoned), finished, or errored (the
finished-with-error outcome of `length_exceeded`), a delivered chunk is
a no-op: state — digest input and byte count included — is unchanged
and no signal fires. -/
theorem checkstream_terminal_write_noop (s : CheckStream) (c : List ℕ)
    (h : s.dead = true ∨ s.finished = true ∨ s.errored = true) :
    (s.writeStep c).1 = s ∧
      (s.writeStep c).1.hashData = s.hashData ∧
      (s.writeStep c).1.bytes = s.bytes ∧
      (s.writeStep c).2.signals = [] := by
  by_cases hfe : (s.finished || s.errored) = true
  · unfold CheckStream.writeStep
    simp [hfe]
  · have hd : s.dead = true := by
      rcases h with h | h | h
      · exact h
      · exact absurd (by simp [h]) hfe
      · exact absurd (by simp [h]) hfe
    unfold CheckStream.writeStep
    simp [hfe, hd]

/-- Witness for C6: a chunk delivered to an abandoned guard changes
nothing and fires nothing. -/
theorem checkstream_terminal_write_noop_witness :
    ((CheckStream.init none 5 5 true).abandonStep.writeStep [1]).1
        = (CheckStream.init none 5 5 true).abandonStep ∧
    ((CheckStream.init none 5 5 true).abandonStep.writeStep [1]).2.signals
        = [] :=
  ⟨(checkstream_terminal_write_noop
        (CheckStream.init none 5 5 true).abandonStep [1] (Or.inl rfl)).1,
    (checkstream_terminal_write_noop
        (CheckStream.init none 5 5 true).abandonStep [1]
        (Or.inl rfl)).2.2.2⟩

/-- C7 (code bug): the direction of the byte-throughput counter is
supposed to follow the `inbound` construction flag, but the constructor
branches on `this.inbound`, which is never assigned and so is
`undefined` (falsy): every guard — `inbound = true` included — counts
its chunks against `muskie_sent_bytes`, never `muskie_received_bytes`. -/
theorem inbound_direction_ignored :
    (CheckStream.init (some "md5") 100 50 true).optsInbound = true ∧
    (CheckStream.init (some "md5") 100 50 true).counterName
        = "muskie_sent_bytes" ∧
    ((CheckStream.init (some "md5") 100 50 true).writeStep [1, 2, 3]).1.sent
        = 3 ∧
    ((CheckStream.init (some "md5") 100 50 true).writeStep
        [1, 2, 3]).1.received = 0 ∧
    (∀ inb : Bool,
      (CheckStream.init (some "md5") 100 50 inb).counterName
        = "muskie_sent_bytes") := by
  refine ⟨rfl, rfl, ?_, ?_, fun inb => rfl⟩ <;>
    simp [CheckStream.init, CheckStream.writeStep, CheckStream.counterAdd,
      jsTruthy, thisInboundAtBranch]

theorem CheckStream.digestStep_listeners (s : CheckStream)
    (enc : Option String) :
    (s.digestStep enc).1.listenersAttached = s.listenersAttached := by
  cases hm : s.digestMemo <;> simp [CheckStream.digestStep, hm]

/-- With listeners detached, no event delivers a signal and the
listeners stay detached. -/
theorem csStep_detached (s : CheckStream) (e : CSEvent)
    (h : s.listenersAttached = false) :
    (CSStep s e).1.listenersAttached = false ∧
      (CSStep s e).2.signals = [] := by
  cases e with
  | write c =>
      simp only [CSStep, CheckStream.writeStep]
      split_ifs <;>
        simp [CheckStream.emitIf, CheckStream.counterAdd_listeners, h]
  | abandonEv => exact ⟨rfl, rfl⟩
  | finishEv =>
      unfold CSStep CheckStream.finishStep
      rw [if_neg (by simp [h])]
      exact ⟨h, rfl⟩
  | digestEv enc =>
      refine ⟨?_, rfl⟩
      have := CheckStream.digestStep_listeners s enc
      simpa [CSStep, h] using this
  | timerFire =>
      unfold CSStep CheckStream.timerFireStep
      split_ifs <;> simp [CheckStream.emitIf, h]

/-- A guard with detached listeners never delivers another signal,
whatever happens to it. -/
theorem csRun_detached (es : List CSEvent) :
    ∀ s : CheckStream, s.listenersAttached = false →
      (csRun s es).1.listenersAttached = false ∧
        ∀ o ∈ (csRun s es).2, o.signals = [] := by
  induction es with
  | nil =>
      intro s h
      exact ⟨by simpa [csRun] using h, by simp [csRun]⟩
  | cons e es ih =>
      intro s h
      have hstep := csStep_detached s e h
      have hrest := ih (CSStep s e).1 hstep.1
      rw [csRun_cons]
      refine ⟨hrest.1, ?_⟩
      intro o ho
      rcases List.mem_cons.mp ho with ho | ho
      · rw [ho]
        exact hstep.2
      · exact hrest.2 o ho

/-- C8: `abandon()` is idempotent and callable from any state; it
cancels the idle timer; after it, no event of any kind delivers a
lifecycle signal; and a subsequently delivered chunk leaves the guard
unchanged, fires nothing, and (when the stream had not already
finished or errored) completes its callback with no error. -/
theorem abandon_safe (s : CheckStream) (es : List CSEvent) (c : List ℕ) :
    s.abandonStep.abandonStep = s.abandonStep ∧
    s.abandonStep.timerArmed = false ∧
    (∀ o ∈ (csRun s.abandonStep es).2, o.signals = []) ∧
    (s.abandonStep.writeStep c).1 = s.abandonStep ∧
    (s.abandonStep.writeStep c).2.signals = [] ∧
    (s.finished = false → s.errored = false →
      (s.abandonStep.writeStep c).2.cb = some none) := by
  have hdet : s.abandonStep.listenersAttached = false := rfl
  refine ⟨rfl, rfl, (csRun_detached es s.abandonStep hdet).2, ?_, ?_, ?_⟩
  · unfold CheckStream.writeStep
    split_ifs with h1 h2
    · rfl
    · rfl
    · exact absurd rfl h2
  · unfold CheckStream.writeStep
    split_ifs with h1 h2
    · rfl
    · rfl
    · exact absurd rfl h2
  · intro hf he
    unfold CheckStream.writeStep
    have hfe : (s.abandonStep.finished || s.abandonStep.errored) = false := by
      show (s.finished || s.errored) = false
      rw [hf, he]
      rfl
    rw [if_neg (by simp [hfe]),
      if_pos (show s.abandonStep.dead = true from rfl)]

/-- Witness for C8: an abandoned fresh guard stays silent through a
finish event and swallows a chunk without error. -/
theorem abandon_safe_witness :
    ((CheckStream.init none 5 5 true).abandonStep.writeStep [1, 2]).2.cb
        = some none ∧
    (∀ o ∈ (csRun (CheckStream.init none 5 5 true).abandonStep
        [CSEvent.finishEv, CSEvent.timerFire]).2, o.signals = []) :=
  ⟨(abandon_safe (CheckStream.init none 5 5 true)
        [CSEvent.finishEv, CSEvent.timerFire] [1, 2]).2.2.2.2.2 rfl rfl,
    (abandon_safe (CheckStream.init none 5 5 true)
        [CSEvent.finishEv, CSEvent.timerFire] [1, 2]).2.2.1⟩

/-- The digest is finalized exactly once: the call count always matches
whether the memo `_digest` has been populated. -/
def FinalizeOnce (s : CheckStream) : Prop :=
  s.finalizeCount = (if s.digestMemo.isSome then 1 else 0)

theorem csStep_finalizeOnce (s : CheckStream) (e : CSEvent)
    (h : FinalizeOnce s) : FinalizeOnce (CSStep s e).1 := by
  cases e with
  | write c =>
      simp only [CSStep, CheckStream.writeStep]
      split_ifs <;>
        simp_all [FinalizeOnce, CheckStream.counterAdd_finalizeCount,
          CheckStream.counterAdd_digestMemo]
  | abandonEv => simpa [CSStep, CheckStream.abandonStep, FinalizeOnce] using h
  | finishEv =>
      unfold CSStep CheckStream.finishStep
      split_ifs with hl
      · cases hm : s.digestMemo <;> simp_all [FinalizeOnce]
      · simpa [FinalizeOnce] using h
  | digestEv enc =>
      cases hm : s.digestMemo <;>
        simp_all [CSStep, CheckStream.digestStep, FinalizeOnce]
  | timerFire =>
      unfold CSStep CheckStream.timerFireStep
      split_ifs <;> simpa [FinalizeOnce] using h

theorem csRun_finalizeOnce (es : List CSEvent) :
    ∀ s : CheckStream, FinalizeOnce s → FinalizeOnce (csRun s es).1 := by
  induction es with
  | nil =>
      intro s h
      simpa [csRun] using h
  | cons e es ih =>
      intro s h
      rw [csRun_cons]
      exact ih (CSStep s e).1 (csStep_finalizeOnce s e h)

/-- C9: `digest()` is idempotent — a second call with the same optional
encoding returns the identical value and leaves the state untouched —
and along any event history from construction the digest finalization
has happened exactly once when the memo is populated and never
otherwise. -/
theorem digest_idempotent_once (s : CheckStream) (enc : Option String)
    (alg : Option String) (maxB tmo : ℕ) (inb : Bool) (es : List CSEvent) :
    ((s.digestStep enc).1.digestStep enc).2 = (s.digestStep enc).2 ∧
    ((s.digestStep enc).1.digestStep enc).1 = (s.digestStep enc).1 ∧
    (csRun (CheckStream.init alg maxB tmo inb) es).1.finalizeCount
      = (if (csRun (CheckStream.init alg maxB tmo inb)
            es).1.digestMemo.isSome then 1 else 0) := by
  refine ⟨?_, ?_, ?_⟩
  · cases hm : s.digestMemo <;> simp [CheckStream.digestStep, hm]
  · cases hm : s.digestMemo <;> simp [CheckStream.digestStep, hm]
  · exact csRun_finalizeOnce es (CheckStream.init alg maxB tmo inb) rfl

end Muskie
